import Mathlib

set_option maxRecDepth 100000

/-!
A shallow embedding of the core of the godhcpd DHCPv4 server
(files `internal/pktinfo.go`, `internal/options.go`, `internal/pool.go`),
together with theorems settling the specification claims about it.

Conventions of the embedding:
* machine integers (`uint8`, `uint16`, `uint32`) are `Nat` with explicit
  `% 2^w` at the places where the Go code performs a conversion or where
  unsigned wrap-around can occur;
* byte strings (`[]byte`, Go `string` payloads) are `List Nat`;
* `net.IP` values are restricted to their IPv4 form: a record of the four
  octets.  Every IP the decoder produces is built with `net.IPv4(a,b,c,d)`
  and every IP the encoder consumes goes through `To4()`, so a four-octet
  record is the faithful carrier for all well-formed data;
* Go maps (`DHCPOptions`, `LeaseMap`) are association lists; map iteration
  order in Go is unspecified, the list order fixes one;
* `time.Time` instants and `time.Duration` values are `Nat` nanoseconds;
  the zero `time.Time` (which is before any current time) is `0`;
* functions that can `panic` in Go return `Option`, with `none` marking
  the panic; fallible functions returning `(T, error)` return a pair of
  the value and an `Option String` error, mirroring Go exactly.
-/

/-- Four octets of an IPv4 address (the `net.IP.To4` form). -/
structure Ipv4 where
  b0 : Nat
  b1 : Nat
  b2 : Nat
  b3 : Nat
deriving DecidableEq, Repr

/-- Address `0.0.0.0` (`net.IPv4zero`). -/
def zeroIpv4 : Ipv4 := ⟨0, 0, 0, 0⟩

/-- Big-endian bytes of a 16-bit value, as written by `binary.Write`. -/
def u16be (n : Nat) : List Nat := [n / 256 % 256, n % 256]

/-- Big-endian bytes of a 32-bit value, as written by `binary.Write`. -/
def u32be (n : Nat) : List Nat :=
  [n / 2 ^ 24 % 256, n / 2 ^ 16 % 256, n / 2 ^ 8 % 256, n % 256]

/-- Big-endian read of two bytes, as done by `binary.Read`. -/
def beU16 : List Nat → Nat
  | [a, b] => a * 256 + b
  | _ => 0

/-- Big-endian read of four bytes, as done by `binary.Read`. -/
def beU32 : List Nat → Nat
  | [a, b, c, d] => ((a * 256 + b) * 256 + c) * 256 + d
  | _ => 0

/-- Bytes of an IPv4 address in wire order (`ipToArray` on a To4 address). -/
def ipBytes (ip : Ipv4) : List Nat := [ip.b0, ip.b1, ip.b2, ip.b3]

/-- Rebuild an address from four wire bytes (`net.IPv4(a,b,c,d)`). -/
def ipFromBytes : List Nat → Ipv4
  | [a, b, c, d] => ⟨a, b, c, d⟩
  | _ => zeroIpv4

/-- Go `copy(dst[:n], src)` into a zero-initialised n-byte array:
the source truncated to `n` bytes and right-padded with zeros. -/
def padTo (n : Nat) (xs : List Nat) : List Nat :=
  xs.take n ++ List.replicate (n - xs.length) 0

/-- The 32-bit big-endian view of an address used by the pool arithmetic
(`uint32(ip[0])<<24 | uint32(ip[1])<<16 | uint32(ip[2])<<8 | uint32(ip[3])`). -/
def Ipv4.toU32 (ip : Ipv4) : Nat :=
  (ip.b0 <<< 24) ||| (ip.b1 <<< 16) ||| (ip.b2 <<< 8) ||| ip.b3

/-- Rebuild an address from a `uint32`
(`net.IPv4(byte(m>>24&0xFF), byte(m>>16&0xFF), byte(m>>8&0xFF), byte(m&0xFF))`). -/
def Ipv4.ofU32 (n : Nat) : Ipv4 :=
  ⟨n >>> 24 &&& 255, n >>> 16 &&& 255, n >>> 8 &&& 255, n &&& 255⟩

/-- The payload value carried by a decoded DHCP option.  The Go code uses
dynamic dispatch over `IPDHCPOption`, `Uint8DHCPOption`, `Uint16DHCPOption`,
`StringDHCPOption` and `DurationDHCPOption`; the embedding uses a sum type
with one constructor per concrete option struct.  `dur` is a duration in
nanoseconds (Go `time.Duration`), restricted to nonnegative values. -/
inductive DHCPOption where
  | ip (v : List Ipv4)
  | u8 (v : List Nat)
  | u16 (v : List Nat)
  | str (v : List Nat)
  | dur (ns : Nat)
deriving DecidableEq, Repr

/-- The `DHCPOptions` map (`map[DHCPOptionCode]DHCPOption`), as an
association list from option code to option value. -/
abbrev DHCPOptions := List (Nat × DHCPOption)

/-- Association-list lookup, modelling a Go map read. -/
def alookup {α : Type} (k : Nat) : List (Nat × α) → Option α
  | [] => none
  | (k2, v) :: rest => if k2 = k then some v else alookup k rest

/-- Association-list update, modelling a Go map assignment `m[k] = v`:
any previous binding of `k` is replaced.  (Go map iteration order is
unspecified; this representative puts the new binding last.) -/
def ainsert {α : Type} (k : Nat) (v : α) (l : List (Nat × α)) : List (Nat × α) :=
  l.filter (fun p => decide (p.1 ≠ k)) ++ [(k, v)]

/-- Nanoseconds in a second (`time.Second`). -/
def nsPerSecond : Nat := 1000000000

/-- `IPDHCPOption.Encode`: four raw octets per address (`To4`). -/
def ipOptionEncode (v : List Ipv4) : List Nat := v.flatMap ipBytes

/-- `Uint16DHCPOption.Encode`: each element big-endian. -/
def u16OptionEncode (v : List Nat) : List Nat := v.flatMap (fun x => u16be (x % 2 ^ 16))

/-- `DurationDHCPOption.Encode`: `uint32(Value / time.Second)` big-endian. -/
def durOptionEncode (ns : Nat) : List Nat := u32be (ns / nsPerSecond % 2 ^ 32)

/-- `DHCPOption.Encode` of each concrete option struct (`Uint8DHCPOption`
and `StringDHCPOption` return their bytes verbatim). -/
def DHCPOption.encode : DHCPOption → List Nat
  | .ip v => ipOptionEncode v
  | .u8 v => v
  | .u16 v => u16OptionEncode v
  | .str v => v
  | .dur ns => durOptionEncode ns

/-- Group a byte list into big-endian 4-octet addresses
(the loop of `IPDHCPOption.Decode`). -/
def bytesToIPList : List Nat → List Ipv4
  | a :: b :: c :: d :: rest => ⟨a, b, c, d⟩ :: bytesToIPList rest
  | _ => []

/-- Group a byte list into big-endian 16-bit values
(the `binary.Read` of `Uint16DHCPOption.Decode`). -/
def bytesToU16List : List Nat → List Nat
  | a :: b :: rest => (a * 256 + b) :: bytesToU16List rest
  | _ => []

/-- `IPDHCPOption.Decode`: the length must be a multiple of four
(zero included); `none` models returning `false`. -/
def ipOptionDecode (data : List Nat) : Option DHCPOption :=
  if data.length % 4 ≠ 0 then none else some (.ip (bytesToIPList data))

/-- `Uint8DHCPOption.Decode`: always succeeds, copies the bytes. -/
def u8OptionDecode (data : List Nat) : Option DHCPOption :=
  some (.u8 data)

/-- `Uint16DHCPOption.Decode`: the length must be even. -/
def u16OptionDecode (data : List Nat) : Option DHCPOption :=
  if data.length % 2 ≠ 0 then none else some (.u16 (bytesToU16List data))

/-- `StringDHCPOption.Decode`: always succeeds, copies the bytes. -/
def stringOptionDecode (data : List Nat) : Option DHCPOption :=
  some (.str data)

/-- `DurationDHCPOption.Decode`: exactly four bytes, big-endian seconds. -/
def durOptionDecode (data : List Nat) : Option DHCPOption :=
  if data.length ≠ 4 then none else some (.dur (beU32 data * nsPerSecond))

/-- Option codes decoded as `IPDHCPOption` (the first `switch` arm of
`decodeOption`). -/
def ipOptionCodes : List Nat := [1, 3, 4, 5, 6, 33, 42, 50, 54]

/-- Option codes decoded as `DurationDHCPOption`. -/
def durOptionCodes : List Nat := [2, 51, 58, 59]

/-- Option codes decoded as `StringDHCPOption`. -/
def stringOptionCodes : List Nat := [12, 15, 56, 60]

/-- Option codes decoded as `Uint8DHCPOption`. -/
def u8OptionCodes : List Nat := [19, 52, 53, 55, 61]

/-- Option codes decoded as `Uint16DHCPOption`. -/
def u16OptionCodes : List Nat := [26, 57]

/-- `decodeOption`: dispatch on the option code; unknown codes yield
`.ok none` (skipped), a failed `Decode` yields the
"Unable to parse option" error. -/
def decodeOption (code : Nat) (data : List Nat) : Except String (Option DHCPOption) :=
  let dec? : Option (List Nat → Option DHCPOption) :=
    if code ∈ ipOptionCodes then some ipOptionDecode
    else if code ∈ durOptionCodes then some durOptionDecode
    else if code ∈ stringOptionCodes then some stringOptionDecode
    else if code ∈ u8OptionCodes then some u8OptionDecode
    else if code ∈ u16OptionCodes then some u16OptionDecode
    else none
  match dec? with
  | none => .ok none
  | some d =>
    match d data with
    | some o => .ok (some o)
    | none => .error "Unable to parse option"

/-- The loop of `DecodeDHCPOptions` over the remaining bytes, carrying the
accumulated output map.  A PAD byte (0) is skipped, END (255) returns the
map, otherwise the next byte is the length followed by the payload.  Go
reads the length byte with `data[i]` after `i++`, which panics when the
code byte was the last byte; the `.error "index out of range"` branch
models that panic. -/
def decodeOptionsLoop : List Nat → DHCPOptions → Except String DHCPOptions
  | [], _ => .error "Options not terminated properly"
  | c :: rest, acc =>
    if c = 0 then decodeOptionsLoop rest acc
    else if c = 255 then .ok acc
    else
      match rest with
      | [] => .error "index out of range"
      | l :: rest2 =>
        if l > rest2.length then .error "Invalid DHCP option length"
        else
          match decodeOption c (rest2.take l) with
          | .error e => .error e
          | .ok none => decodeOptionsLoop (rest2.drop l) acc
          | .ok (some o) => decodeOptionsLoop (rest2.drop l) (ainsert c o acc)
termination_by l _ => l.length
decreasing_by
  all_goals simp [List.length_drop] <;> omega

/-- `DecodeDHCPOptions`: run the loop on the options region with an empty map. -/
def DecodeDHCPOptions (data : List Nat) : Except String DHCPOptions :=
  decodeOptionsLoop data []

/-- `DHCPOptions.Encode`: emit `code, length, payload` for every entry that
is not PAD or END, fail when a payload exceeds 255 octets, and terminate
with a single END byte. -/
def encodeOptionsList : DHCPOptions → Except String (List Nat)
  | [] => .ok [255]
  | (code, opt) :: rest =>
    if code = 255 ∨ code = 0 then encodeOptionsList rest
    else
      let data := opt.encode
      if data.length > 255 then .error "Option taking more than 255 bytes detected"
      else
        match encodeOptionsList rest with
        | .error e => .error e
        | .ok tail => .ok (code % 256 :: data.length :: (data ++ tail))

/-- The parsed fixed BOOTP part of a message (`BootpHeader`).  `seconds` is
the `Seconds` duration in nanoseconds; `serverName` and `fileName` carry
the bytes of the Go strings. -/
structure BootpHeader where
  op : Nat
  hwAddrType : Nat
  hops : Nat
  transactionID : Nat
  seconds : Nat
  flags : Nat
  clientIP : Ipv4
  yourIP : Ipv4
  serverIP : Ipv4
  relayAgentIP : Ipv4
  clientHwAddr : List Nat
  serverName : List Nat
  fileName : List Nat
deriving DecidableEq, Repr

/-- The on-wire fixed header (`rawBootpHeader`), with the fixed-width byte
arrays as lists of the stated length. -/
structure RawBootpHeader where
  Op : Nat
  HwAddrType : Nat
  HwAddrLength : Nat
  Hops : Nat
  TransactionID : Nat
  Seconds : Nat
  Flags : Nat
  ClientIP : Ipv4
  YourIP : Ipv4
  ServerIP : Ipv4
  RelayAgentIP : Ipv4
  ClientHwAddr : List Nat
  ServerName : List Nat
  FileName : List Nat
deriving DecidableEq, Repr

/-- An entire DHCP message (`DHCPMessage`): embedded header plus options. -/
structure DHCPMessage where
  header : BootpHeader
  options : DHCPOptions
deriving DecidableEq, Repr

/-- `cstringToGo`: the byte prefix before the first NUL. -/
def cstringToGo (bs : List Nat) : List Nat := bs.takeWhile (fun b => b != 0)

/-- `BootpHeader.raw()`: narrow every field to its wire width and pad the
fixed-size arrays.  `HwAddrLength` is `uint8(len(ClientHwAddr))` and the
hardware address is truncated to that length before being padded to 16. -/
def BootpHeader.raw (h : BootpHeader) : RawBootpHeader :=
  { Op := h.op % 256
    HwAddrType := h.hwAddrType % 256
    HwAddrLength := h.clientHwAddr.length % 256
    Hops := h.hops % 256
    TransactionID := h.transactionID % 2 ^ 32
    Seconds := h.seconds / nsPerSecond % 2 ^ 16
    Flags := h.flags % 2 ^ 16
    ClientIP := h.clientIP
    YourIP := h.yourIP
    ServerIP := h.serverIP
    RelayAgentIP := h.relayAgentIP
    ClientHwAddr := padTo 16 (h.clientHwAddr.take (h.clientHwAddr.length % 256))
    ServerName := padTo 64 h.serverName
    FileName := padTo 128 h.fileName }

/-- The 236 bytes `binary.Write(buffer, binary.BigEndian, raw)` produces:
each field in declaration order, multi-octet fields big-endian, arrays
padded to their fixed width. -/
def RawBootpHeader.bytes (r : RawBootpHeader) : List Nat :=
  [r.Op % 256, r.HwAddrType % 256, r.HwAddrLength % 256, r.Hops % 256]
    ++ u32be r.TransactionID ++ u16be r.Seconds ++ u16be r.Flags
    ++ ipBytes r.ClientIP ++ ipBytes r.YourIP ++ ipBytes r.ServerIP ++ ipBytes r.RelayAgentIP
    ++ padTo 16 r.ClientHwAddr ++ padTo 64 r.ServerName ++ padTo 128 r.FileName

/-- The `binary.Read` of a `rawBootpHeader`: consume the fields in wire
order from the byte stream.  Only called when at least 236 bytes are
available (`binary.Read` fails otherwise); the catch-all branch is never
reached in that case. -/
def parseRawHeader : List Nat → RawBootpHeader
  | op :: ht :: hl :: hops ::
    t0 :: t1 :: t2 :: t3 :: s0 :: s1 :: f0 :: f1 ::
    c0 :: c1 :: c2 :: c3 :: y0 :: y1 :: y2 :: y3 ::
    v0 :: v1 :: v2 :: v3 :: g0 :: g1 :: g2 :: g3 :: rest =>
    { Op := op, HwAddrType := ht, HwAddrLength := hl, Hops := hops
      TransactionID := ((t0 * 256 + t1) * 256 + t2) * 256 + t3
      Seconds := s0 * 256 + s1
      Flags := f0 * 256 + f1
      ClientIP := ⟨c0, c1, c2, c3⟩
      YourIP := ⟨y0, y1, y2, y3⟩
      ServerIP := ⟨v0, v1, v2, v3⟩
      RelayAgentIP := ⟨g0, g1, g2, g3⟩
      ClientHwAddr := rest.take 16
      ServerName := (rest.drop 16).take 64
      FileName := (rest.drop 80).take 128 }
  | _ =>
    { Op := 0, HwAddrType := 0, HwAddrLength := 0, Hops := 0, TransactionID := 0
      Seconds := 0, Flags := 0, ClientIP := zeroIpv4, YourIP := zeroIpv4
      ServerIP := zeroIpv4, RelayAgentIP := zeroIpv4, ClientHwAddr := []
      ServerName := [], FileName := [] }

/-- `rawBootpHeader.transform()`: rebuild the `BootpHeader`, truncating the
name strings at the first NUL, validating the operation and the hardware
address length, and slicing the hardware address to its recorded length.
The error cases return the partially built header exactly as the Go code
does (its `ClientHwAddr` still unset, i.e. nil). -/
def RawBootpHeader.transform (r : RawBootpHeader) : BootpHeader × Option String :=
  let bootp0 : BootpHeader :=
    { op := r.Op
      hwAddrType := r.HwAddrType
      hops := r.Hops
      transactionID := r.TransactionID
      seconds := r.Seconds * nsPerSecond
      flags := r.Flags
      clientIP := r.ClientIP
      yourIP := r.YourIP
      serverIP := r.ServerIP
      relayAgentIP := r.RelayAgentIP
      clientHwAddr := []
      serverName := cstringToGo r.ServerName
      fileName := cstringToGo r.FileName }
  if r.Op ≠ 1 ∧ r.Op ≠ 2 then (bootp0, some "Invalid BootP operation")
  else if r.HwAddrLength = 0 ∨ r.HwAddrLength > 16 then
    (bootp0, some "Invalid MAC address length")
  else ({ bootp0 with clientHwAddr := r.ClientHwAddr.take r.HwAddrLength }, none)

/-- The DHCP magic cookie `0x63825363`. -/
def dhcpMagicCookie : Nat := 0x63825363

/-- Size of the fixed BOOTP header on the wire (`bootpHeaderSize`). -/
def bootpHeaderSize : Nat := 12 + 32 + 64 + 128

/-- The zero value of `DHCPMessage` (all-zero header, nil IPs rendered as
`0.0.0.0`, nil option map rendered as the empty list). -/
def zeroDHCPMessage : DHCPMessage :=
  { header :=
      { op := 0, hwAddrType := 0, hops := 0, transactionID := 0, seconds := 0
        flags := 0, clientIP := zeroIpv4, yourIP := zeroIpv4, serverIP := zeroIpv4
        relayAgentIP := zeroIpv4, clientHwAddr := [], serverName := [], fileName := [] }
    options := [] }

/-- `UnmarshallDHCPMessage`: read the raw header, check the magic cookie,
decode the options region starting at byte 240, then transform the header.
Mirrors the Go control flow, returning the message value together with the
optional error exactly as the `(DHCPMessage, error)` pair does. -/
def UnmarshallDHCPMessage (msg : List Nat) : DHCPMessage × Option String :=
  if msg.length < bootpHeaderSize then (zeroDHCPMessage, some "unexpected EOF")
  else if msg.length < bootpHeaderSize + 4 then
    (zeroDHCPMessage, some "Unable to read DHCP cookie value")
  else if beU32 ((msg.drop bootpHeaderSize).take 4) ≠ dhcpMagicCookie then
    (zeroDHCPMessage, some "Invalid DHCP cookie value")
  else
    match DecodeDHCPOptions (msg.drop (bootpHeaderSize + 4)) with
    | .error e => (zeroDHCPMessage, some e)
    | .ok options =>
      match (parseRawHeader msg).transform with
      | (bootp, some e) => ({ header := bootp, options := [] }, some e)
      | (bootp, none) => ({ header := bootp, options := options }, none)

/-- `MarshallDHCPMessage`: header bytes, cookie, encoded options.  When the
option encoding fails the Go function returns `(nil, nil)` — no bytes and
also no error; the embedding returns the same pair shape. -/
def MarshallDHCPMessage (msg : DHCPMessage) : Option (List Nat) × Option String :=
  match encodeOptionsList msg.options with
  | .error _ => (none, none)
  | .ok opt => (some (msg.header.raw.bytes ++ u32be dhcpMagicCookie ++ opt), none)

/-- The DHCP message types (`DHCPType`). -/
inductive DHCPType where
  | Unknown
  | Discover
  | Offer
  | Request
  | Decline
  | Ack
  | Nak
  | Release
  | Inform
deriving DecidableEq, Repr

/-- Numeric value 1–8 to `DHCPType` (anything else is `Unknown`). -/
def DHCPType.fromByte : Nat → DHCPType
  | 1 => .Discover
  | 2 => .Offer
  | 3 => .Request
  | 4 => .Decline
  | 5 => .Ack
  | 6 => .Nak
  | 7 => .Release
  | 8 => .Inform
  | _ => .Unknown

/-- `DHCPMessage.Type()`: read option 53 and map its first byte.  The Go
code evaluates `opt.Data().([]uint8)[0]` before checking `found`, so a
missing option 53 dereferences a nil interface and panics, an option of a
different dynamic type fails the type assertion and panics, and an empty
value slice indexes out of range and panics; `none` models those panics. -/
def DHCPMessage.typeOf (msg : DHCPMessage) : Option DHCPType :=
  match alookup 53 msg.options with
  | none => none
  | some (.u8 []) => none
  | some (.u8 (t :: _)) => some (if t > 8 ∨ t = 0 then .Unknown else DHCPType.fromByte t)
  | some _ => none

/-- `DHCPMessage.RequestedIP()`: option 50, first address.  The outer
`Option` is `none` on a panic (type assertion failure or empty address
list); `some none` is the Go nil result for an absent option. -/
def DHCPMessage.RequestedIP (msg : DHCPMessage) : Option (Option Ipv4) :=
  match alookup 50 msg.options with
  | none => some none
  | some (.ip []) => none
  | some (.ip (ip :: _)) => some (some ip)
  | some _ => none

/-- `DHCPMessage.ServerIdentifier()`: option 54, first address, with the
same panic conventions as `RequestedIP`. -/
def DHCPMessage.ServerIdentifier (msg : DHCPMessage) : Option (Option Ipv4) :=
  match alookup 54 msg.options with
  | none => some none
  | some (.ip []) => none
  | some (.ip (ip :: _)) => some (some ip)
  | some _ => none

/-- `BuildBasicReply`: a BOOTREPLY with the request's transaction keys
copied over, the broadcast flag forced, the server IP filled in and an
option map holding only option 54 = server identifier. -/
def BuildBasicReply (request : DHCPMessage) (serverIP : Ipv4) : DHCPMessage :=
  { header :=
      { op := 2
        hwAddrType := request.header.hwAddrType
        hops := request.header.hops
        transactionID := request.header.transactionID
        seconds := request.header.seconds
        flags := 0x8000
        serverIP := serverIP
        relayAgentIP := zeroIpv4
        clientIP := zeroIpv4
        yourIP := zeroIpv4
        clientHwAddr := request.header.clientHwAddr
        serverName := []
        fileName := [] }
    options := [(54, .ip [serverIP])] }

/-- One iteration of the `UDPReceiver` goroutine body after a successful
socket read: unmarshal the buffer and push the resulting message.  The Go
loop logs an unmarshal error but has no `continue`, so the (zero-valued)
message is pushed onto the channel regardless; the returned list is what
gets pushed. -/
def UDPReceiverStep (buffer : List Nat) : List DHCPMessage :=
  [(UnmarshallDHCPMessage buffer).1]

/-- Lease lifecycle states (`LeaseState`). -/
inductive LeaseState where
  | Reserved
  | InUse
deriving DecidableEq, Repr

/-- Address selection policies (`AddressSelectAlgorithm`). -/
inductive AddressSelectAlgorithm where
  | Sequential
  | Randomized
deriving DecidableEq, Repr

/-- `ClientIdentifier`: an optional explicit identifier plus the hardware
address. -/
structure ClientIdentifier where
  ID : List Nat
  Mac : List Nat
deriving DecidableEq, Repr

/-- `ClientIdentifier.equals`: compare by `ID` when it is non-empty,
otherwise by hardware address. -/
def ClientIdentifier.equals (id other : ClientIdentifier) : Bool :=
  if 0 < id.ID.length then id.ID == other.ID else id.Mac == other.Mac

/-- A lease (`Lease`); `expires` is an absolute instant in nanoseconds,
`0` being the zero `time.Time`. -/
structure Lease where
  address : Ipv4
  state : LeaseState
  id : ClientIdentifier
  expires : Nat
deriving DecidableEq, Repr

/-- The lease table (`LeaseMap`, `map[uint32]*Lease`) as an association
list keyed by the `uint32` index. -/
abbrev LeaseMap := List (Nat × Lease)

/-- A pool (`Pool`): lease table, network (IP and mask of the `net.IPNet`),
index range, lifetime (nanoseconds) and selection algorithm.  The inbox
channel is part of the concurrency shell, not of the state the claims
are about. -/
structure Pool where
  leases : LeaseMap
  networkIP : Ipv4
  networkMask : Ipv4
  Start : Nat
  End : Nat
  Lifetime : Nat
  Algorithm : AddressSelectAlgorithm
deriving DecidableEq, Repr

/-- `newClientIdentifier`: built from the hardware address only
(option 61 is not consulted). -/
def newClientIdentifier (msg : DHCPMessage) : ClientIdentifier :=
  { ID := [], Mac := msg.header.clientHwAddr }

/-- `pool.addressFromIndex`: the network address's 32-bit value OR-ed with
`index + pool.Start` (32-bit addition), rendered as a dotted quad.  Note
the local variable the source calls `mask` holds the network ADDRESS. -/
def Pool.addressFromIndex (pool : Pool) (index : Nat) : Ipv4 :=
  let mask := pool.networkIP.toU32
  Ipv4.ofU32 (mask ||| ((index + pool.Start) % 2 ^ 32))

/-- `pool.indexFromAddress`: `(ip_u32 &^ network_u32) - pool.Start` in
32-bit arithmetic.  The only failure in the source is a non-IPv4 input,
which the four-octet `Ipv4` carrier excludes, so the embedded function
always returns `.ok`; there is no range or network membership check
(the source carries a `TODO: validation` comment there). -/
def Pool.indexFromAddress (pool : Pool) (ip : Ipv4) : Except String Nat :=
  let mask := pool.networkIP.toU32
  let ipaddr := ip.toU32
  .ok (((ipaddr &&& (mask ^^^ (2 ^ 32 - 1))) + (2 ^ 32 - pool.Start % 2 ^ 32)) % 2 ^ 32)

/-- `selectNumber`: `Sequential` takes the first free index, `Randomized`
takes `indices[rand.Intn(len(indices))]`; the extra argument `r` stands
for the random draw, reduced modulo the slice length like `rand.Intn`.
Only called with a non-empty slice. -/
def selectNumber (algo : AddressSelectAlgorithm) (indices : List Nat) (r : Nat) : Nat :=
  match algo with
  | .Sequential => indices.headD 0
  | .Randomized => indices.getD (r % indices.length) 0

/-- `pool.freeIndices`: every index in `[Start, End]` without a lease, in
ascending order. -/
def Pool.freeIndices (pool : Pool) : List Nat :=
  ((List.range (pool.End + 1 - pool.Start)).map (· + pool.Start)).filter
    (fun i => (alookup i pool.leases).isNone)

/-- `pool.findClientLease`: some lease owned by the client, if any (Go map
iteration order is unspecified; the embedding scans the list). -/
def Pool.findClientLease (pool : Pool) (id : ClientIdentifier) : Option Lease :=
  (pool.leases.find? (fun p => p.2.id.equals id)).map (·.2)

/-- `pool.freeLeases`: delete every lease owned by the client. -/
def Pool.freeLeases (pool : Pool) (id : ClientIdentifier) : Pool :=
  { pool with leases := pool.leases.filter (fun p => !(p.2.id.equals id)) }

/-- `pool.expireOld`: delete every lease whose expiry is before now. -/
def Pool.expireOld (pool : Pool) (now : Nat) : Pool :=
  { pool with leases := pool.leases.filter (fun p => decide (now ≤ p.2.expires)) }

/-- The option-map mutations common to OFFER and ACK replies: message type,
subnet mask, router and DNS (both the server IP), and the pool lifetime,
applied to the `BuildBasicReply` map in source order. -/
def replyEnvelope (base : DHCPOptions) (msgType : Nat) (pool : Pool) (serverIP : Ipv4)
    : DHCPOptions :=
  ainsert 51 (.dur pool.Lifetime)
    (ainsert 6 (.ip [serverIP])
      (ainsert 3 (.ip [serverIP])
        (ainsert 1 (.ip [⟨pool.networkMask.b0, pool.networkMask.b1,
                          pool.networkMask.b2, pool.networkMask.b3⟩])
          (ainsert 53 (.u8 [msgType]) base))))

/-- The OFFER/ACK reply shape shared by `handleDiscover` and
`handleRequest`: the basic reply with `yiaddr` set to the lease address
and the standard parameter envelope applied to its option map. -/
def dhcpReply (msg : DHCPMessage) (serverIP : Ipv4) (pool : Pool) (msgType : Nat)
    (addr : Ipv4) : DHCPMessage :=
  let base := BuildBasicReply msg serverIP
  { header := { base.header with yourIP := addr }
    options := replyEnvelope base.options msgType pool serverIP }

/-- `pool.handleDiscover`: find or reserve a lease for the client, then
send an OFFER carrying the lease address.  `r` is the random draw used by
`selectNumber`.  Newly reserved leases get state `Reserved` and no expiry
(the zero instant).  Returns the updated pool and the pushed replies. -/
def Pool.handleDiscover (pool : Pool) (msg : DHCPMessage) (serverIP : Ipv4) (r : Nat)
    : Pool × List DHCPMessage :=
  let clientID := newClientIdentifier msg
  let found? : Option (Pool × Lease) :=
    match pool.findClientLease clientID with
    | some lease => some (pool, lease)
    | none =>
      let free := pool.freeIndices
      if free.isEmpty then none
      else
        let idx := selectNumber pool.Algorithm free r
        let lease : Lease :=
          { address := pool.addressFromIndex idx, id := clientID
            state := .Reserved, expires := 0 }
        some ({ pool with leases := ainsert idx lease pool.leases }, lease)
  match found? with
  | none => (pool, [])
  | some (pool2, lease) => (pool2, [dhcpReply msg serverIP pool 2 lease.address])

/-- `pool.sendNack`: a NAK reply with option 56 carrying the reason. -/
def Pool.sendNack (pool : Pool) (msg : DHCPMessage) (serverIP : Ipv4) (reason : List Nat)
    : DHCPMessage :=
  let base := BuildBasicReply msg serverIP
  { base with options := ainsert 56 (.str reason) (ainsert 53 (.u8 [6]) base.options) }

/-- Bytes of a Go string literal used as a NAK reason. -/
def strBytes (s : String) : List Nat := s.data.map Char.toNat

/-- `pool.handleRequest`: resolve the requested address (option 50, falling
back to a nonzero `ciaddr`), free the client's leases when another server
was selected, validate the lease at the resolved index, and on success
mark it in use until `now + Lifetime` and reply with an ACK.  `none`
propagates a panic in the option accessors. -/
def Pool.handleRequest (pool : Pool) (msg : DHCPMessage) (serverIP : Ipv4) (now : Nat)
    : Option (Pool × List DHCPMessage) :=
  let clientID := newClientIdentifier msg
  match msg.ServerIdentifier, msg.RequestedIP with
  | none, _ => none
  | _, none => none
  | some selectedServer, some requestedIP0 =>
    let requestedIP? : Option Ipv4 :=
      match requestedIP0 with
      | some ip => some ip
      | none => if msg.header.clientIP = zeroIpv4 then none else some msg.header.clientIP
    match requestedIP? with
    | none => some (pool, [])
    | some requestedIP =>
      if (match selectedServer with
          | some s => decide (s ≠ serverIP)
          | none => false) then
        some (pool.freeLeases clientID, [])
      else
        match pool.indexFromAddress requestedIP with
        | .error _ =>
          if selectedServer.isSome then
            some (pool, [pool.sendNack msg serverIP (strBytes "Invalid address")])
          else some (pool, [])
        | .ok idx =>
          match alookup idx pool.leases with
          | none =>
            if selectedServer.isSome then
              some (pool, [pool.sendNack msg serverIP (strBytes "No lease found")])
            else some (pool, [])
          | some lease =>
            if !(lease.id.equals clientID) then
              if selectedServer.isSome then
                some (pool, [pool.sendNack msg serverIP
                  (strBytes "Requested IP address is leased by different client")])
              else some (pool, [])
            else
              let lease2 : Lease := { lease with state := .InUse, expires := now + pool.Lifetime }
              some ({ pool with leases := ainsert idx lease2 pool.leases },
                [dhcpReply msg serverIP pool 5 lease2.address])

/-- Well-formed IPv4 address: four octets. -/
def Ipv4.WF (ip : Ipv4) : Prop :=
  ip.b0 < 256 ∧ ip.b1 < 256 ∧ ip.b2 < 256 ∧ ip.b3 < 256

instance (ip : Ipv4) : Decidable ip.WF := by unfold Ipv4.WF; infer_instance

/-- Well-formed option payload: every component fits its wire width and a
duration is a whole number of seconds fitting 32 bits. -/
def DHCPOption.WF : DHCPOption → Prop
  | .ip v => ∀ a ∈ v, a.WF
  | .u8 v => ∀ b ∈ v, b < 256
  | .u16 v => ∀ x ∈ v, x < 2 ^ 16
  | .str v => ∀ b ∈ v, b < 256
  | .dur ns => ns % nsPerSecond = 0 ∧ ns / nsPerSecond < 2 ^ 32

instance (o : DHCPOption) : Decidable o.WF := by
  unfold DHCPOption.WF; cases o <;> infer_instance

/-- The option value has the dynamic type `decodeOption` produces for its
code (the authoritative code → variant table). -/
def variantOk (code : Nat) : DHCPOption → Prop
  | .ip _ => code ∈ ipOptionCodes
  | .u8 _ => code ∈ u8OptionCodes
  | .u16 _ => code ∈ u16OptionCodes
  | .str _ => code ∈ stringOptionCodes
  | .dur _ => code ∈ durOptionCodes

instance (code : Nat) (o : DHCPOption) : Decidable (variantOk code o) := by
  unfold variantOk; cases o <;> infer_instance

/-- Well-formed options map: distinct codes, no PAD/END entries, each code
an octet matching its value's variant, payloads well formed and at most
255 octets once encoded. -/
def optionsWF (opts : DHCPOptions) : Prop :=
  (opts.map Prod.fst).Nodup ∧
  ∀ p ∈ opts, p.1 ≠ 0 ∧ p.1 ≠ 255 ∧ p.1 < 256 ∧
    variantOk p.1 p.2 ∧ p.2.WF ∧ p.2.encode.length ≤ 255

instance (opts : DHCPOptions) : Decidable (optionsWF opts) := by
  unfold optionsWF; infer_instance

/-- Well-formed fixed header: valid operation, octet-sized small fields,
32-bit transaction id, whole-second 16-bit `secs`, 16-bit flags, IPv4
addresses, a 1–16 octet hardware address, and NUL-free name strings within
their 64/128-octet fields. -/
def BootpHeader.WF (h : BootpHeader) : Prop :=
  (h.op = 1 ∨ h.op = 2) ∧ h.hwAddrType < 256 ∧ h.hops < 256 ∧
  h.transactionID < 2 ^ 32 ∧
  h.seconds % nsPerSecond = 0 ∧ h.seconds / nsPerSecond < 2 ^ 16 ∧
  h.flags < 2 ^ 16 ∧
  h.clientIP.WF ∧ h.yourIP.WF ∧ h.serverIP.WF ∧ h.relayAgentIP.WF ∧
  1 ≤ h.clientHwAddr.length ∧ h.clientHwAddr.length ≤ 16 ∧
  (∀ b ∈ h.clientHwAddr, b < 256) ∧
  h.serverName.length ≤ 64 ∧ (∀ b ∈ h.serverName, 0 < b ∧ b < 256) ∧
  h.fileName.length ≤ 128 ∧ (∀ b ∈ h.fileName, 0 < b ∧ b < 256)

instance (h : BootpHeader) : Decidable h.WF := by
  unfold BootpHeader.WF; infer_instance

/-- Well-formed DHCP message: header and options both well formed. -/
def DHCPMessage.WF (m : DHCPMessage) : Prop := m.header.WF ∧ optionsWF m.options

instance (m : DHCPMessage) : Decidable m.WF := by
  unfold DHCPMessage.WF; infer_instance

/-- A `192.168.99.0/24` pool with indices 2–99 and a 24h lifetime (the
shipped default configuration). -/
def pool192 : Pool :=
  { leases := [], networkIP := ⟨192, 168, 99, 0⟩, networkMask := ⟨255, 255, 255, 0⟩,
    Start := 2, End := 99, Lifetime := 86400 * nsPerSecond, Algorithm := .Sequential }

/-- A sample well-formed request message used as concrete input. -/
def m0 : DHCPMessage :=
  { header :=
      { op := 1, hwAddrType := 1, hops := 0, transactionID := 0xdeadbeef,
        seconds := 3 * nsPerSecond, flags := 0x8000,
        clientIP := zeroIpv4, yourIP := zeroIpv4, serverIP := zeroIpv4,
        relayAgentIP := zeroIpv4, clientHwAddr := [1, 2, 3, 4, 5, 6],
        serverName := [104, 105], fileName := [] },
    options := [(53, .u8 [1]), (50, .ip [⟨192, 168, 99, 10⟩]),
                (51, .dur (7 * nsPerSecond)), (12, .str [97, 98]), (57, .u16 [576])] }

/-- A lease for client MAC `01:02:03:04:05:06` at index 8
(address `192.168.99.10`). -/
def leaseM : Lease :=
  { address := ⟨192, 168, 99, 10⟩, state := .Reserved,
    id := { ID := [], Mac := [1, 2, 3, 4, 5, 6] }, expires := 0 }

/-- `pool192` holding `leaseM` at index 8. -/
def poolC7 : Pool := { pool192 with leases := [(8, leaseM)] }

/-- A REQUEST from `leaseM`'s owner naming another server (option 54 =
`192.168.99.250`) that carries neither option 50 nor a nonzero `ciaddr`. -/
def msgC7 : DHCPMessage :=
  { header := { m0.header with clientIP := zeroIpv4 },
    options := [(54, .ip [⟨192, 168, 99, 250⟩])] }

/-- A renewing REQUEST from `leaseM`'s owner for `192.168.99.10` naming
this server. -/
def msgC6 : DHCPMessage :=
  { header := m0.header,
    options := [(54, .ip [⟨192, 168, 99, 1⟩]), (50, .ip [⟨192, 168, 99, 10⟩])] }

/-- A message whose option map has no entry for option 53. -/
def msgNo53 : DHCPMessage := { header := m0.header, options := [] }

/-- A 240-byte all-zero datagram: long enough for the fixed header but with
a wrong magic cookie, so it fails to decode. -/
def badDatagram : List Nat := List.replicate 240 0

/-- A message holding a single host-name option whose payload is 256
octets, one more than a TLV length byte can describe. -/
def bigOptMsg : DHCPMessage :=
  { header := m0.header, options := [(12, .str (List.replicate 256 97))] }

/-- `pool192` restricted to the single index 99. -/
def poolC2 : Pool := { pool192 with Start := 99, End := 99 }

theorem filter_cons_eq {α : Type} (p : Nat × α → Bool) (q : Nat × α) (l : List (Nat × α)) :
    (q :: l).filter p = if p q then q :: l.filter p else l.filter p := by
  by_cases h : p q <;> simp [List.filter_cons, h]

theorem alookup_cons {α : Type} (k : Nat) (q : Nat × α) (l : List (Nat × α)) :
    alookup k (q :: l) = if q.1 = k then some q.2 else alookup k l := by
  cases q; rfl

theorem alookup_filter_self {α : Type} (k : Nat) (l : List (Nat × α)) :
    alookup k (l.filter (fun p => decide (p.1 ≠ k))) = none := by
  induction l with
  | nil => rfl
  | cons q rest ih =>
    rw [filter_cons_eq]
    by_cases h : q.1 = k
    · rw [if_neg (by simp [h])]; exact ih
    · rw [if_pos (by simp [h]), alookup_cons, if_neg h]; exact ih

theorem alookup_filter_ne {α : Type} (i k : Nat) (l : List (Nat × α)) (h : i ≠ k) :
    alookup i (l.filter (fun p => decide (p.1 ≠ k))) = alookup i l := by
  induction l with
  | nil => rfl
  | cons q rest ih =>
    rw [filter_cons_eq, alookup_cons]
    by_cases hk : q.1 = k
    · rw [if_neg (by simp [hk]), if_neg (by omega), ih]
    · rw [if_pos (by simp [hk]), alookup_cons]
      by_cases hi : q.1 = i
      · rw [if_pos hi, if_pos hi]
      · rw [if_neg hi, if_neg hi, ih]

theorem alookup_append_none {α : Type} (k : Nat) (l1 l2 : List (Nat × α))
    (h : alookup k l1 = none) : alookup k (l1 ++ l2) = alookup k l2 := by
  induction l1 with
  | nil => rfl
  | cons q rest ih =>
    rw [alookup_cons] at h
    rw [List.cons_append, alookup_cons]
    by_cases hk : q.1 = k
    · rw [if_pos hk] at h; exact absurd h (by simp)
    · rw [if_neg hk] at h; rw [if_neg hk]; exact ih h

theorem alookup_append_some {α : Type} (k : Nat) (v : α) (l1 l2 : List (Nat × α))
    (h : alookup k l1 = some v) : alookup k (l1 ++ l2) = some v := by
  induction l1 with
  | nil => exact absurd h (by simp [alookup])
  | cons q rest ih =>
    rw [alookup_cons] at h
    rw [List.cons_append, alookup_cons]
    by_cases hk : q.1 = k
    · rw [if_pos hk] at h; rw [if_pos hk]; exact h
    · rw [if_neg hk] at h; rw [if_neg hk]; exact ih h

theorem alookup_ainsert_self {α : Type} (k : Nat) (v : α) (l : List (Nat × α)) :
    alookup k (ainsert k v l) = some v := by
  unfold ainsert
  rw [alookup_append_none k _ _ (alookup_filter_self k l), alookup_cons, if_pos rfl]

theorem alookup_ainsert_ne {α : Type} (i k : Nat) (v : α) (l : List (Nat × α)) (h : i ≠ k) :
    alookup i (ainsert k v l) = alookup i l := by
  unfold ainsert
  cases hcase : alookup i (l.filter (fun p => decide (p.1 ≠ k))) with
  | none =>
    rw [alookup_append_none i _ _ hcase]
    rw [alookup_filter_ne i k l h] at hcase
    rw [alookup_cons, if_neg (by omega), hcase]
    rfl
  | some w =>
    rw [alookup_append_some i w _ _ hcase]
    rw [alookup_filter_ne i k l h] at hcase
    exact hcase.symm

theorem alookup_none_filter {α : Type} (k : Nat) (p : Nat × α → Bool) (l : List (Nat × α))
    (h : alookup k l = none) : alookup k (l.filter p) = none := by
  induction l with
  | nil => rfl
  | cons q rest ih =>
    rw [alookup_cons] at h
    by_cases hk : q.1 = k
    · rw [if_pos hk] at h; exact absurd h (by simp)
    · rw [if_neg hk] at h
      rw [filter_cons_eq]
      by_cases hp : p q
      · rw [if_pos hp, alookup_cons, if_neg hk]; exact ih h
      · rw [if_neg hp]; exact ih h

theorem alookup_some_mem {α : Type} (k : Nat) (v : α) (l : List (Nat × α))
    (h : alookup k l = some v) : (k, v) ∈ l := by
  induction l with
  | nil => exact absurd h (by simp [alookup])
  | cons q rest ih =>
    rw [alookup_cons] at h
    by_cases hk : q.1 = k
    · rw [if_pos hk] at h
      have hq : q = (k, v) := by
        cases q
        simp only [Option.some.injEq] at h
        simp [hk.symm, h.symm]
      exact hq ▸ List.mem_cons_self q rest
    · rw [if_neg hk] at h
      exact List.mem_cons_of_mem q (ih h)

theorem alookup_filter_false {α : Type} (k : Nat) (v : α) (p : Nat × α → Bool)
    (l : List (Nat × α)) (hnd : (l.map Prod.fst).Nodup)
    (h : alookup k l = some v) (hp : p (k, v) = false) :
    alookup k (l.filter p) = none := by
  induction l with
  | nil => exact absurd h (by simp [alookup])
  | cons q rest ih =>
    have hnd2 : (rest.map Prod.fst).Nodup := (List.nodup_cons.mp (by simpa using hnd)).2
    rw [alookup_cons] at h
    by_cases hk : q.1 = k
    · rw [if_pos hk] at h
      have hq : q = (k, v) := by
        cases q
        simp only [Option.some.injEq] at h
        simp [hk.symm, h.symm]
      have hrest : alookup k rest = none := by
        cases hcase : alookup k rest with
        | none => rfl
        | some w =>
          have hmem := alookup_some_mem k w rest hcase
          have h1 : k ∈ rest.map Prod.fst := List.mem_map.mpr ⟨(k, w), hmem, rfl⟩
          have h2 : q.1 ∉ rest.map Prod.fst := (List.nodup_cons.mp (by simpa using hnd)).1
          rw [hk] at h2
          exact absurd h1 h2
      rw [filter_cons_eq, hq, if_neg (by simp [hp])]
      exact alookup_none_filter k p rest hrest
    · rw [if_neg hk] at h
      rw [filter_cons_eq]
      by_cases hpq : p q
      · rw [if_pos hpq, alookup_cons, if_neg hk]
        exact ih hnd2 h
      · rw [if_neg hpq]
        exact ih hnd2 h

theorem nodup_keys_filter {α : Type} (p : Nat × α → Bool) (l : List (Nat × α))
    (hnd : (l.map Prod.fst).Nodup) : ((l.filter p).map Prod.fst).Nodup := by
  have hsub : (l.filter p).Sublist l := List.filter_sublist l
  exact (hsub.map Prod.fst).nodup hnd

theorem nodup_keys_ainsert {α : Type} (k : Nat) (v : α) (l : List (Nat × α))
    (hnd : (l.map Prod.fst).Nodup) : ((ainsert k v l).map Prod.fst).Nodup := by
  unfold ainsert
  rw [List.map_append, List.nodup_append]
  refine ⟨nodup_keys_filter _ l hnd, by simp, ?_⟩
  intro x hx
  simp only [List.mem_map] at hx
  obtain ⟨q, hq, hqx⟩ := hx
  have hne := (List.mem_filter.mp hq).2
  simp only [decide_eq_true_eq] at hne
  simp [← hqx, hne]

theorem filter_keys_ne_eq_self {α : Type} (k : Nat) (l : List (Nat × α))
    (h : ∀ p ∈ l, p.1 ≠ k) : l.filter (fun p => decide (p.1 ≠ k)) = l := by
  induction l with
  | nil => rfl
  | cons q rest ih =>
    rw [filter_cons_eq, if_pos (by simp [h q (List.mem_cons_self q rest)])]
    rw [ih (fun p hp => h p (List.mem_cons_of_mem q hp))]

theorem beU16_u16be (n : Nat) (h : n < 2 ^ 16) : beU16 (u16be n) = n := by
  simp only [u16be, beU16]
  omega

theorem beU32_u32be (n : Nat) (h : n < 2 ^ 32) : beU32 (u32be n) = n := by
  simp only [u32be, beU32]
  omega

theorem padTo_length (n : Nat) (xs : List Nat) : (padTo n xs).length = n := by
  simp [padTo]
  omega

theorem padTo_eq_append (n : Nat) (xs : List Nat) (h : xs.length ≤ n) :
    padTo n xs = xs ++ List.replicate (n - xs.length) 0 := by
  simp [padTo, List.take_of_length_le h]

theorem padTo_of_length_eq (n : Nat) (xs : List Nat) (h : xs.length = n) :
    padTo n xs = xs := by
  rw [padTo_eq_append n xs (Nat.le_of_eq h), h]
  simp

theorem takeWhile_append_all (p : Nat → Bool) (xs ys : List Nat)
    (h : ∀ b ∈ xs, p b = true) :
    (xs ++ ys).takeWhile p = xs ++ ys.takeWhile p := by
  induction xs with
  | nil => rfl
  | cons a rest ih =>
    have ha : p a = true := h a (List.mem_cons_self a rest)
    rw [List.cons_append, List.takeWhile_cons, ha, if_pos rfl]
    rw [ih (fun b hb => h b (List.mem_cons_of_mem a hb)), List.cons_append]

theorem takeWhile_replicate_zero (k : Nat) :
    (List.replicate k 0).takeWhile (fun b => b != 0) = [] := by
  cases k with
  | zero => rfl
  | succ m => rw [List.replicate_succ, List.takeWhile_cons]; rfl

theorem cstring_padTo (n : Nat) (xs : List Nat) (hlen : xs.length ≤ n)
    (h : ∀ b ∈ xs, 0 < b) : cstringToGo (padTo n xs) = xs := by
  rw [cstringToGo, padTo_eq_append n xs hlen]
  rw [takeWhile_append_all _ xs _ (fun b hb => by
    have := h b hb
    simp only [bne_iff_ne, ne_eq]
    omega)]
  rw [takeWhile_replicate_zero]
  simp

theorem bytesToIPList_encode (v : List Ipv4) : bytesToIPList (ipOptionEncode v) = v := by
  induction v with
  | nil => rfl
  | cons a rest ih =>
    obtain ⟨a0, a1, a2, a3⟩ := a
    simp only [ipOptionEncode, List.flatMap_cons, ipBytes, List.cons_append,
      List.nil_append] at ih ⊢
    rw [bytesToIPList, ih]

theorem ipOptionEncode_length (v : List Ipv4) : (ipOptionEncode v).length = 4 * v.length := by
  induction v with
  | nil => rfl
  | cons a rest ih =>
    show (ipBytes a ++ ipOptionEncode rest).length = 4 * (a :: rest).length
    rw [List.length_append, ih]
    simp [ipBytes]
    omega

theorem bytesToU16List_encode (v : List Nat) (h : ∀ x ∈ v, x < 2 ^ 16) :
    bytesToU16List (u16OptionEncode v) = v := by
  induction v with
  | nil => rfl
  | cons a rest ih =>
    have ha := h a (List.mem_cons_self a rest)
    simp only [u16OptionEncode, List.flatMap_cons, u16be, List.cons_append,
      List.nil_append] at ih ⊢
    rw [bytesToU16List, ih (fun x hx => h x (List.mem_cons_of_mem a hx))]
    congr 1
    omega

theorem u16OptionEncode_length (v : List Nat) :
    (u16OptionEncode v).length = 2 * v.length := by
  induction v with
  | nil => rfl
  | cons a rest ih =>
    show (u16be (a % 2 ^ 16) ++ u16OptionEncode rest).length = 2 * (a :: rest).length
    rw [List.length_append, ih]
    simp [u16be]
    omega

theorem durOptionDecode_encode (ns : Nat) (h1 : ns % nsPerSecond = 0)
    (h2 : ns / nsPerSecond < 2 ^ 32) :
    durOptionDecode (durOptionEncode ns) = some (.dur ns) := by
  rw [durOptionEncode, Nat.mod_eq_of_lt h2]
  rw [durOptionDecode]
  rw [if_neg (by simp [u32be])]
  rw [beU32_u32be _ h2]
  have : ns / nsPerSecond * nsPerSecond = ns := Nat.div_mul_cancel (Nat.dvd_of_mod_eq_zero h1)
  rw [this]

theorem decodeOption_encode (code : Nat) (o : DHCPOption)
    (hv : variantOk code o) (hWF : o.WF) :
    decodeOption code o.encode = .ok (some o) := by
  cases o with
  | ip v =>
    simp only [variantOk, ipOptionCodes] at hv
    fin_cases hv <;>
      simp [decodeOption, ipOptionCodes, durOptionCodes, stringOptionCodes, u8OptionCodes,
        u16OptionCodes, DHCPOption.encode, ipOptionDecode, ipOptionEncode_length,
        Nat.mul_mod_right, bytesToIPList_encode]
  | u8 v =>
    simp only [variantOk, u8OptionCodes] at hv
    fin_cases hv <;>
      simp [decodeOption, ipOptionCodes, durOptionCodes, stringOptionCodes, u8OptionCodes,
        u16OptionCodes, DHCPOption.encode, u8OptionDecode]
  | u16 v =>
    simp only [DHCPOption.WF] at hWF
    simp only [variantOk, u16OptionCodes] at hv
    fin_cases hv <;>
      simp [decodeOption, ipOptionCodes, durOptionCodes, stringOptionCodes, u8OptionCodes,
        u16OptionCodes, DHCPOption.encode, u16OptionDecode, u16OptionEncode_length,
        Nat.mul_mod_right, bytesToU16List_encode v hWF]
  | str v =>
    simp only [variantOk, stringOptionCodes] at hv
    fin_cases hv <;>
      simp [decodeOption, ipOptionCodes, durOptionCodes, stringOptionCodes, u8OptionCodes,
        u16OptionCodes, DHCPOption.encode, stringOptionDecode]
  | dur ns =>
    obtain ⟨h1, h2⟩ := hWF
    simp only [variantOk, durOptionCodes] at hv
    fin_cases hv <;>
      simp [decodeOption, ipOptionCodes, durOptionCodes, stringOptionCodes, u8OptionCodes,
        u16OptionCodes, DHCPOption.encode, durOptionDecode_encode ns h1 h2]

/-- Per-entry obligations of `optionsWF` (the non-`Nodup` part). -/
def optionsEntriesWF (opts : DHCPOptions) : Prop :=
  ∀ p ∈ opts, p.1 ≠ 0 ∧ p.1 ≠ 255 ∧ p.1 < 256 ∧
    variantOk p.1 p.2 ∧ p.2.WF ∧ p.2.encode.length ≤ 255

theorem encode_decode_options (opts : DHCPOptions) :
    ∀ acc : DHCPOptions,
    optionsEntriesWF opts → (opts.map Prod.fst).Nodup →
    (∀ p ∈ acc, ∀ q ∈ opts, p.1 ≠ q.1) →
    ∃ bs, encodeOptionsList opts = .ok bs ∧ 0 < bs.length ∧
      decodeOptionsLoop bs acc = .ok (acc ++ opts) := by
  induction opts with
  | nil =>
    intro acc _ _ _
    exact ⟨[255], rfl, by simp, by simp [decodeOptionsLoop]⟩
  | cons entry rest ih =>
    intro acc hWF hnd hdisj
    obtain ⟨code, o⟩ := entry
    obtain ⟨hc0, hc255, hc256, hvar, hoWF, hlen⟩ := hWF (code, o) (List.mem_cons_self _ _)
    have hc0' : code ≠ 0 := hc0
    have hc255' : code ≠ 255 := hc255
    have hc256' : code < 256 := hc256
    have hvar' : variantOk code o := hvar
    have hoWF' : o.WF := hoWF
    have hlen' : o.encode.length ≤ 255 := hlen
    have hWFrest : optionsEntriesWF rest :=
      fun p hp => hWF p (List.mem_cons_of_mem _ hp)
    have hnd' : ((code, o).1 :: rest.map Prod.fst).Nodup := by
      rw [← List.map_cons]; exact hnd
    have hndrest : (rest.map Prod.fst).Nodup := (List.nodup_cons.mp hnd').2
    have hcode_notin : code ∉ rest.map Prod.fst := (List.nodup_cons.mp hnd').1
    have hdisj2 : ∀ p ∈ acc ++ [(code, o)], ∀ q ∈ rest, p.1 ≠ q.1 := by
      intro p hp q hq
      rcases List.mem_append.mp hp with hpa | hpo
      · exact hdisj p hpa q (List.mem_cons_of_mem _ hq)
      · have hpc : p = (code, o) := by simpa using hpo
        subst hpc
        intro hEq
        exact hcode_notin (List.mem_map.mpr ⟨q, hq, hEq.symm⟩)
    obtain ⟨tail, htail, htpos, hdec⟩ := ih (acc ++ [(code, o)]) hWFrest hndrest hdisj2
    refine ⟨code % 256 :: o.encode.length :: (o.encode ++ tail), ?_, by simp, ?_⟩
    · simp only [encodeOptionsList]
      rw [if_neg (by omega), if_neg (by omega), htail]
    · rw [Nat.mod_eq_of_lt hc256']
      simp only [decodeOptionsLoop]
      rw [if_neg hc0', if_neg hc255']
      rw [if_neg (by simp only [List.length_append]; omega)]
      rw [List.take_left, List.drop_left]
      rw [decodeOption_encode code o hvar' hoWF']
      have hins : ainsert code o acc = acc ++ [(code, o)] := by
        unfold ainsert
        rw [filter_keys_ne_eq_self code acc
          (fun p hp => hdisj p hp (code, o) (List.mem_cons_self _ _))]
      show decodeOptionsLoop tail (ainsert code o acc) = Except.ok (acc ++ (code, o) :: rest)
      rw [hins, hdec]
      simp

theorem rawBytes_length (r : RawBootpHeader) : r.bytes.length = 236 := by
  simp [RawBootpHeader.bytes, u32be, u16be, ipBytes, padTo_length]

theorem drop_append_of_length {α : Type} (l1 l2 : List α) (n m : Nat)
    (h : l1.length = n) : (l1 ++ l2).drop (n + m) = l2.drop m := by
  subst h
  rw [← List.drop_drop, List.drop_left]

theorem parseRawHeader_bytes (r : RawBootpHeader) (rest : List Nat)
    (hT : r.TransactionID < 2 ^ 32) (hS : r.Seconds < 2 ^ 16) (hF : r.Flags < 2 ^ 16)
    (hOp : r.Op < 256) (hHT : r.HwAddrType < 256) (hHL : r.HwAddrLength < 256)
    (hH : r.Hops < 256)
    (hC : r.ClientHwAddr.length = 16) (hSN : r.ServerName.length = 64)
    (hFN : r.FileName.length = 128) :
    parseRawHeader (r.bytes ++ rest) = r := by
  obtain ⟨Op, HT, HL, Hops, T, S, F, cip, yip, sip, gip, C, SN, FN⟩ := r
  obtain ⟨c0, c1, c2, c3⟩ := cip
  obtain ⟨y0, y1, y2, y3⟩ := yip
  obtain ⟨v0, v1, v2, v3⟩ := sip
  obtain ⟨g0, g1, g2, g3⟩ := gip
  simp only at hT hS hF hOp hHT hHL hH hC hSN hFN
  simp only [RawBootpHeader.bytes, u32be, u16be, ipBytes, List.cons_append,
    List.nil_append, List.append_assoc]
  rw [padTo_of_length_eq 16 C hC, padTo_of_length_eq 64 SN hSN,
    padTo_of_length_eq 128 FN hFN]
  rw [parseRawHeader]
  have e16 : (C ++ (SN ++ (FN ++ rest))).take 16 = C := List.take_left' hC
  have d16 : (C ++ (SN ++ (FN ++ rest))).drop 16 = SN ++ (FN ++ rest) :=
    List.drop_left' hC
  have e64 : (SN ++ (FN ++ rest)).take 64 = SN := List.take_left' hSN
  have d80 : (C ++ (SN ++ (FN ++ rest))).drop 80 = FN ++ rest := by
    rw [show (80 : Nat) = 16 + 64 from rfl, drop_append_of_length C _ 16 64 hC,
      List.drop_left' hSN]
  have e128 : (FN ++ rest).take 128 = FN := List.take_left' hFN
  rw [e16, d16, e64, d80, e128]
  have hmod : ∀ a : Nat, a < 256 → a % 256 = a := fun a ha => Nat.mod_eq_of_lt ha
  simp only [RawBootpHeader.mk.injEq, and_true, true_and]
  exact ⟨hmod _ hOp, hmod _ hHT, hmod _ hHL, hmod _ hH, by omega, by omega, by omega⟩

theorem transform_raw (h : BootpHeader) (hWF : h.WF) : h.raw.transform = (h, none) := by
  obtain ⟨op, hwt, hops, tid, secs, fl, cip, yip, sip, gip, chaddr, sn, fn⟩ := h
  obtain ⟨hop, hhw, hhops, htid, hsec1, hsec2, hfl, _, _, _, _,
    hhw1, hhw16, _, hsn, hsnb, hfn, hfnb⟩ := hWF
  simp only at hop hhw hhops htid hsec1 hsec2 hfl hhw1 hhw16 hsn hsnb hfn hfnb
  have hop256 : op < 256 := by omega
  have hlen256 : chaddr.length % 256 = chaddr.length := Nat.mod_eq_of_lt (by omega)
  rw [BootpHeader.raw, RawBootpHeader.transform]
  simp only [hlen256, List.take_length]
  rw [if_neg (by simp only [Nat.mod_eq_of_lt hop256]; omega)]
  rw [if_neg (by omega)]
  rw [padTo_eq_append 16 chaddr (by omega), List.take_left]
  rw [cstring_padTo 64 sn hsn (fun b hb => (hsnb b hb).1)]
  rw [cstring_padTo 128 fn hfn (fun b hb => (hfnb b hb).1)]
  have hsecs : secs / nsPerSecond % 2 ^ 16 * nsPerSecond = secs := by
    rw [Nat.mod_eq_of_lt hsec2]
    exact Nat.div_mul_cancel (Nat.dvd_of_mod_eq_zero hsec1)
  rw [hsecs, Nat.mod_eq_of_lt hop256, Nat.mod_eq_of_lt hhw,
    Nat.mod_eq_of_lt hhops, Nat.mod_eq_of_lt htid, Nat.mod_eq_of_lt hfl]

theorem parseRawHeader_raw (h : BootpHeader) (rest : List Nat) :
    parseRawHeader (h.raw.bytes ++ rest) = h.raw := by
  apply parseRawHeader_bytes
  · exact Nat.mod_lt _ (by norm_num)
  · exact Nat.mod_lt _ (by norm_num)
  · exact Nat.mod_lt _ (by norm_num)
  · exact Nat.mod_lt _ (by norm_num)
  · exact Nat.mod_lt _ (by norm_num)
  · exact Nat.mod_lt _ (by norm_num)
  · exact Nat.mod_lt _ (by norm_num)
  · exact padTo_length 16 _
  · exact padTo_length 64 _
  · exact padTo_length 128 _

/-- C1: for every well-formed `DHCPMessage m`, marshalling succeeds and
unmarshalling the produced bytes yields `m` again (the embedding's option
map is an association list in a fixed order, so the "up to option map
iteration order" proviso is discharged by the decoder rebuilding the very
same list, and well-formed `sname`/`file` strings are NUL-free so the
padding round-trips exactly). -/
theorem C1_roundtrip (m : DHCPMessage) (hWF : m.WF) :
    ∃ bs, MarshallDHCPMessage m = (some bs, none) ∧
      UnmarshallDHCPMessage bs = (m, none) := by
  obtain ⟨hh, hnd, hentries⟩ := hWF
  obtain ⟨opt, henc, hpos, hdec⟩ :=
    encode_decode_options m.options [] hentries hnd (by simp)
  refine ⟨m.header.raw.bytes ++ u32be dhcpMagicCookie ++ opt, ?_, ?_⟩
  · rw [MarshallDHCPMessage, henc]
  · have hlenraw := rawBytes_length m.header.raw
    have hlen4 : (u32be dhcpMagicCookie).length = 4 := by simp [u32be]
    have hlen240 : (m.header.raw.bytes ++ u32be dhcpMagicCookie).length = 240 := by
      rw [List.length_append, hlenraw, hlen4]
    have hlen : (m.header.raw.bytes ++ u32be dhcpMagicCookie ++ opt).length =
        240 + opt.length := by
      rw [List.length_append, hlen240]
    rw [UnmarshallDHCPMessage]
    rw [show bootpHeaderSize = 236 from rfl]
    rw [if_neg (by omega), if_neg (by omega)]
    have hcookie : ((m.header.raw.bytes ++ u32be dhcpMagicCookie ++ opt).drop 236).take 4 =
        u32be dhcpMagicCookie := by
      rw [List.append_assoc, List.drop_left' hlenraw, List.take_left' hlen4]
    rw [hcookie, beU32_u32be dhcpMagicCookie (by norm_num [dhcpMagicCookie])]
    rw [if_neg (by simp)]
    have hdrop : (m.header.raw.bytes ++ u32be dhcpMagicCookie ++ opt).drop (236 + 4) = opt :=
      List.drop_left' hlen240
    rw [hdrop, DecodeDHCPOptions, hdec]
    rw [List.append_assoc, parseRawHeader_raw m.header _, transform_raw m.header hh]
    simp

theorem selectNumber_mem (algo : AddressSelectAlgorithm) (indices : List Nat) (r : Nat)
    (h : indices ≠ []) : selectNumber algo indices r ∈ indices := by
  cases algo with
  | Sequential =>
    cases indices with
    | nil => exact absurd rfl h
    | cons a rest => simp [selectNumber]
  | Randomized =>
    have hlen : 0 < indices.length := List.length_pos.mpr h
    have hr : r % indices.length < indices.length := Nat.mod_lt _ hlen
    rw [selectNumber, List.getD_eq_getElem?_getD, List.getElem?_eq_getElem hr]
    exact List.getElem_mem hr

theorem freeIndices_range (pool : Pool) (i : Nat) (h : i ∈ pool.freeIndices) :
    pool.Start ≤ i ∧ i ≤ pool.End := by
  unfold Pool.freeIndices at h
  have h1 := (List.mem_filter.mp h).1
  simp only [List.mem_map, List.mem_range] at h1
  obtain ⟨j, hj, rfl⟩ := h1
  omega

theorem freeIndices_free (pool : Pool) (i : Nat) (h : i ∈ pool.freeIndices) :
    alookup i pool.leases = none := by
  unfold Pool.freeIndices at h
  have h2 := (List.mem_filter.mp h).2
  simpa [Option.isNone_iff_eq_none] using h2

theorem handleDiscover_new (pool : Pool) (msg : DHCPMessage) (serverIP : Ipv4) (r : Nat)
    (pool2 : Pool) (out : List DHCPMessage) (i : Nat) (lease : Lease)
    (hrun : pool.handleDiscover msg serverIP r = (pool2, out))
    (hnew : alookup i pool.leases = none)
    (hfound : alookup i pool2.leases = some lease) :
    i ∈ pool.freeIndices ∧
    lease = { address := pool.addressFromIndex i, id := newClientIdentifier msg,
              state := .Reserved, expires := 0 } ∧
    pool2.leases = ainsert i lease pool.leases := by
  simp only [Pool.handleDiscover] at hrun
  cases hfind : pool.findClientLease (newClientIdentifier msg) with
  | some l =>
    rw [hfind] at hrun
    injection hrun with h1 h2
    rw [← h1] at hfound
    rw [hnew] at hfound
    exact absurd hfound (by simp)
  | none =>
    rw [hfind] at hrun
    by_cases hfree : pool.freeIndices.isEmpty
    · rw [if_pos hfree] at hrun
      injection hrun with h1 h2
      rw [← h1] at hfound
      rw [hnew] at hfound
      exact absurd hfound (by simp)
    · rw [if_neg hfree] at hrun
      injection hrun with h1 h2
      have hne : pool.freeIndices ≠ [] := by
        intro hnil
        rw [hnil] at hfree
        exact hfree rfl
      have hidxmem := selectNumber_mem pool.Algorithm pool.freeIndices r hne
      subst h1
      generalize hidx : selectNumber pool.Algorithm pool.freeIndices r = idx at hfound hidxmem
      by_cases hie : i = idx
      · subst hie
        have hfound2 : alookup i (ainsert i
            { address := pool.addressFromIndex i, id := newClientIdentifier msg,
              state := .Reserved, expires := 0 } pool.leases) = some lease := hfound
        rw [alookup_ainsert_self] at hfound2
        have hlease := Option.some.inj hfound2
        refine ⟨hidxmem, hlease.symm, ?_⟩
        show ainsert i _ pool.leases = ainsert i lease pool.leases
        rw [hlease]
      · have hfound2 : alookup i (ainsert idx
            { address := pool.addressFromIndex idx, id := newClientIdentifier msg,
              state := .Reserved, expires := 0 } pool.leases) = some lease := hfound
        rw [alookup_ainsert_ne i _ _ _ hie] at hfound2
        rw [hnew] at hfound2
        exact absurd hfound2 (by simp)

/-- C2 counterexample: in the single-index pool `poolC2` (range 99–99 on
`192.168.99.0/24`), the DISCOVER path stores at key 99 a lease whose
address is `192.168.99.198 = base | (99 + Start)` — not
`base | 99 = 192.168.99.99` as the claim states — and that address lies
outside the claimed range `[base | Start, base | End]`. -/
theorem C2_counterexample :
    (poolC2.handleDiscover m0 ⟨192, 168, 99, 1⟩ 0).1.leases =
      [(99, { address := ⟨192, 168, 99, 198⟩, state := .Reserved,
              id := { ID := [], Mac := [1, 2, 3, 4, 5, 6] }, expires := 0 })] ∧
    (⟨192, 168, 99, 198⟩ : Ipv4) ≠ Ipv4.ofU32 (poolC2.networkIP.toU32 ||| 99) ∧
    ¬ (poolC2.networkIP.toU32 ||| poolC2.Start ≤ (⟨192, 168, 99, 198⟩ : Ipv4).toU32 ∧
       (⟨192, 168, 99, 198⟩ : Ipv4).toU32 ≤ poolC2.networkIP.toU32 ||| poolC2.End) := by
  refine ⟨?_, by decide, by decide⟩
  rfl

/-- C2 amended: every lease the DISCOVER path stores is keyed by an index
`i` in `[Start, End]`, and its address is the network base OR-ed with
`(i + Start) mod 2^32` — the host part is offset by `Start` once more, so
the addresses run up to `base | (End + Start)` rather than `base | End`. -/
theorem C2_amended (pool : Pool) (msg : DHCPMessage) (serverIP : Ipv4) (r : Nat)
    (pool2 : Pool) (out : List DHCPMessage) (i : Nat) (lease : Lease)
    (hrun : pool.handleDiscover msg serverIP r = (pool2, out))
    (hnew : alookup i pool.leases = none)
    (hfound : alookup i pool2.leases = some lease) :
    pool.Start ≤ i ∧ i ≤ pool.End ∧
    lease.address = Ipv4.ofU32 (pool.networkIP.toU32 ||| ((i + pool.Start) % 2 ^ 32)) := by
  obtain ⟨hmem, hlease, _⟩ :=
    handleDiscover_new pool msg serverIP r pool2 out i lease hrun hnew hfound
  obtain ⟨h1, h2⟩ := freeIndices_range pool i hmem
  refine ⟨h1, h2, ?_⟩
  rw [hlease]
  rfl

/-- C2 amended witness: in `poolC2` the DISCOVER path stores a lease at
key 99 = Start = End whose address is `base | ((99 + 99) mod 2^32)`. -/
theorem C2_amended_witness :
    poolC2.handleDiscover m0 ⟨192, 168, 99, 1⟩ 0 =
      ((poolC2.handleDiscover m0 ⟨192, 168, 99, 1⟩ 0).1,
       (poolC2.handleDiscover m0 ⟨192, 168, 99, 1⟩ 0).2) ∧
    alookup 99 poolC2.leases = none ∧
    poolC2.Start ≤ 99 ∧ 99 ≤ poolC2.End ∧
    ({ address := ⟨192, 168, 99, 198⟩, state := .Reserved,
       id := { ID := [], Mac := [1, 2, 3, 4, 5, 6] }, expires := 0 } : Lease).address =
      Ipv4.ofU32 (poolC2.networkIP.toU32 ||| ((99 + poolC2.Start) % 2 ^ 32)) := by
  refine ⟨rfl, rfl, ?_⟩
  have h := C2_amended poolC2 m0 ⟨192, 168, 99, 1⟩ 0
    (poolC2.handleDiscover m0 ⟨192, 168, 99, 1⟩ 0).1
    (poolC2.handleDiscover m0 ⟨192, 168, 99, 1⟩ 0).2 99
    { address := ⟨192, 168, 99, 198⟩, state := .Reserved,
      id := { ID := [], Mac := [1, 2, 3, 4, 5, 6] }, expires := 0 }
    rfl rfl (by rfl)
  exact h

/-- C10: a lease created by DISCOVER handling is stored with state
`Reserved` and the zero expiry instant, and since the zero instant is
before any positive current time, the next expiry sweep (`expireOld`,
driven by the 10-second ticker) deletes it — unless a REQUEST has replaced
it with a fresh expiry first, which would contradict `hfound` returning
the just-created lease. -/
theorem C10_reserved_expiry (pool : Pool) (msg : DHCPMessage) (serverIP : Ipv4) (r : Nat)
    (pool2 : Pool) (out : List DHCPMessage) (i : Nat) (lease : Lease) (now : Nat)
    (hnd : (pool.leases.map Prod.fst).Nodup)
    (hrun : pool.handleDiscover msg serverIP r = (pool2, out))
    (hnew : alookup i pool.leases = none)
    (hfound : alookup i pool2.leases = some lease)
    (hnow : 0 < now) :
    lease.state = .Reserved ∧ lease.expires = 0 ∧
    alookup i (pool2.expireOld now).leases = none := by
  obtain ⟨_, hlease, hpool2⟩ :=
    handleDiscover_new pool msg serverIP r pool2 out i lease hrun hnew hfound
  refine ⟨by rw [hlease], by rw [hlease], ?_⟩
  have hnd2 : (pool2.leases.map Prod.fst).Nodup := by
    rw [hpool2]
    exact nodup_keys_ainsert i lease pool.leases hnd
  show alookup i (pool2.leases.filter (fun p => decide (now ≤ p.2.expires))) = none
  apply alookup_filter_false i lease _ pool2.leases hnd2 hfound
  rw [hlease]
  simp
  omega

/-- C10 witness: a DISCOVER on the empty default pool creates the lease at
index 2 with state `Reserved` and zero expiry, and the sweep at time 1
removes it. -/
theorem C10_witness :
    (pool192.leases.map Prod.fst).Nodup ∧
    alookup 2 pool192.leases = none ∧
    ({ address := ⟨192, 168, 99, 4⟩, state := .Reserved,
       id := { ID := [], Mac := [1, 2, 3, 4, 5, 6] }, expires := 0 } : Lease).state =
        LeaseState.Reserved ∧
    ({ address := ⟨192, 168, 99, 4⟩, state := .Reserved,
       id := { ID := [], Mac := [1, 2, 3, 4, 5, 6] }, expires := 0 } : Lease).expires = 0 ∧
    alookup 2 (((pool192.handleDiscover m0 ⟨192, 168, 99, 1⟩ 0).1.expireOld 1)).leases =
      none := by
  refine ⟨by decide, rfl, ?_⟩
  exact C10_reserved_expiry pool192 m0 ⟨192, 168, 99, 1⟩ 0
    (pool192.handleDiscover m0 ⟨192, 168, 99, 1⟩ 0).1
    (pool192.handleDiscover m0 ⟨192, 168, 99, 1⟩ 0).2 2
    { address := ⟨192, 168, 99, 4⟩, state := .Reserved,
      id := { ID := [], Mac := [1, 2, 3, 4, 5, 6] }, expires := 0 } 1
    (by decide) rfl rfl (by rfl) (by decide)

/-- C3: `Type()` on a message with no option 53 panics (a nil-interface
dereference, `none` in the embedding) instead of returning `Unknown` as
the claim requires; the accessor is not total. -/
theorem C3_type_panics :
    msgNo53.typeOf = none ∧ msgNo53.typeOf ≠ some DHCPType.Unknown := by
  exact ⟨rfl, by decide⟩

/-- C4: `indexFromAddress` on the default `192.168.99.0/24` pool accepts
`10.0.0.1` — an address outside the pool's network whose computed index
167772159 is far outside `[Start, End] = [2, 99]` — returning it as `.ok`
instead of failing as the claim requires. -/
theorem C4_no_validation :
    pool192.indexFromAddress ⟨10, 0, 0, 1⟩ = .ok 167772159 ∧
    (Ipv4.toU32 ⟨10, 0, 0, 1⟩ &&& pool192.networkMask.toU32) ≠ pool192.networkIP.toU32 ∧
    ¬ (pool192.Start ≤ 167772159 ∧ 167772159 ≤ pool192.End) := by
  refine ⟨by rfl, by decide, by decide⟩

/-- C5: a datagram that fails to decode (240 zero bytes: bad magic cookie)
is still pushed onto the receiver's channel as a zero-valued message —
the Go loop logs the error but lacks a `continue` — contradicting the
claim that nothing derived from it is enqueued. -/
theorem C5_bad_datagram_pushed :
    (UnmarshallDHCPMessage badDatagram).2 = some "Invalid DHCP cookie value" ∧
    UDPReceiverStep badDatagram = [zeroDHCPMessage] := by
  exact ⟨rfl, rfl⟩

/-- C8: encoding the options of `bigOptMsg` (one 256-octet payload) fails
with the oversized-option error, yet `MarshallDHCPMessage` returns
`(nil, nil)` — no bytes but also no error — instead of propagating it. -/
theorem C8_marshal_swallows_error :
    encodeOptionsList bigOptMsg.options =
      .error "Option taking more than 255 bytes detected" ∧
    MarshallDHCPMessage bigOptMsg = (none, none) := by
  exact ⟨rfl, rfl⟩

/-- C9 counterexample: the decoder accepts an empty payload both for
option 53 (message type, claimed to require length exactly 1) and for
option 1 (subnet mask, claimed to require a positive multiple of 4). -/
theorem C9_counterexample :
    decodeOption 53 [] = .ok (some (.u8 [])) ∧
    decodeOption 1 [] = .ok (some (.ip [])) := by
  exact ⟨rfl, rfl⟩

/-- C9 amended: for the Ipv4List codes the decoder accepts a payload
exactly when its length is a multiple of 4, zero included; for option 53
any length whatsoever is accepted and the bytes are copied verbatim. -/
theorem C9_amended (c : Nat) (data : List Nat) (hc : c ∈ ipOptionCodes) :
    ((∃ o, decodeOption c data = .ok (some o)) ↔ data.length % 4 = 0) ∧
    decodeOption 53 data = .ok (some (.u8 data)) := by
  constructor
  · rw [ipOptionCodes] at hc
    fin_cases hc <;>
      · simp only [decodeOption, ipOptionCodes, durOptionCodes, stringOptionCodes,
          u8OptionCodes, u16OptionCodes]
        norm_num
        by_cases h : data.length % 4 = 0
        · simp [ipOptionDecode, h]
        · simp [ipOptionDecode, h]
  · simp only [decodeOption, ipOptionCodes, durOptionCodes, stringOptionCodes,
      u8OptionCodes, u16OptionCodes]
    norm_num [u8OptionDecode]

/-- C9 amended witness: code 1 with a 1-octet payload is rejected (length
not a multiple of 4) while option 53 accepts the same 1-octet payload. -/
theorem C9_amended_witness :
    (1 : Nat) ∈ ipOptionCodes ∧
    (((∃ o, decodeOption 1 [9] = .ok (some o)) ↔ ([9] : List Nat).length % 4 = 0) ∧
     decodeOption 53 [9] = .ok (some (.u8 [9]))) := by
  exact ⟨by decide, C9_amended 1 [9] (by decide)⟩

theorem replyEnvelope_type (base : DHCPOptions) (t : Nat) (pool : Pool) (serverIP : Ipv4) :
    alookup 53 (replyEnvelope base t pool serverIP) = some (.u8 [t]) := by
  rw [replyEnvelope]
  rw [alookup_ainsert_ne 53 51 _ _ (by omega), alookup_ainsert_ne 53 6 _ _ (by omega),
    alookup_ainsert_ne 53 3 _ _ (by omega), alookup_ainsert_ne 53 1 _ _ (by omega),
    alookup_ainsert_self]


/-- C6: a REQUEST whose requested address (option 50, or the nonzero
`ciaddr` fallback) resolves to an existing lease owned by the requesting
client, with an absent or matching server identifier, leaves the lease's
address unchanged, marks it `InUse` with expiry `now + Lifetime`, and
replies with a single ACK whose `yiaddr` is the lease's address and whose
option 53 is ACK (5). -/
theorem C6_renewal (pool : Pool) (msg : DHCPMessage) (serverIP : Ipv4) (now : Nat)
    (sid? : Option Ipv4) (ip : Ipv4) (idx : Nat) (lease : Lease)
    (hsid : msg.ServerIdentifier = some sid?)
    (hsidok : sid? = none ∨ sid? = some serverIP)
    (hrip : msg.RequestedIP = some (some ip) ∨
      (msg.RequestedIP = some none ∧ msg.header.clientIP = ip ∧ ip ≠ zeroIpv4))
    (hidx : pool.indexFromAddress ip = .ok idx)
    (hlease : alookup idx pool.leases = some lease)
    (howner : lease.id.equals (newClientIdentifier msg) = true) :
    pool.handleRequest msg serverIP now =
      some ({ pool with
                leases := ainsert idx ({ lease with state := .InUse, expires := now + pool.Lifetime }) pool.leases },
            [dhcpReply msg serverIP pool 5 lease.address]) ∧
    alookup idx (ainsert idx ({ lease with state := .InUse, expires := now + pool.Lifetime }) pool.leases) =
      some { lease with state := .InUse, expires := now + pool.Lifetime } ∧
    (dhcpReply msg serverIP pool 5 lease.address).header.yourIP = lease.address ∧
    alookup 53 (dhcpReply msg serverIP pool 5 lease.address).options = some (.u8 [5]) := by
  refine ⟨?_, alookup_ainsert_self _ _ _, rfl, replyEnvelope_type _ 5 pool serverIP⟩
  rcases hsidok with rfl | rfl
  · rcases hrip with hripA | ⟨hripB, hcip, hcipne⟩
    · simp [Pool.handleRequest, hsid, hripA, hidx, hlease, howner]
    · simp [Pool.handleRequest, hsid, hripB, hcip, hcipne, hidx, hlease, howner]
  · rcases hrip with hripA | ⟨hripB, hcip, hcipne⟩
    · simp [Pool.handleRequest, hsid, hripA, hidx, hlease, howner]
    · simp [Pool.handleRequest, hsid, hripB, hcip, hcipne, hidx, hlease, howner]

/-- C6 witness: renewing REQUEST `msgC6` against `poolC7` (lease at index
8 owned by the same client, server identifier matching `192.168.99.1`)
yields the ACK and the refreshed `InUse` lease. -/
theorem C6_witness :
    msgC6.ServerIdentifier = some (some ⟨192, 168, 99, 1⟩) ∧
    msgC6.RequestedIP = some (some ⟨192, 168, 99, 10⟩) ∧
    poolC7.indexFromAddress ⟨192, 168, 99, 10⟩ = .ok 8 ∧
    alookup 8 poolC7.leases = some leaseM ∧
    leaseM.id.equals (newClientIdentifier msgC6) = true ∧
    (poolC7.handleRequest msgC6 ⟨192, 168, 99, 1⟩ 1000 =
      some ({ poolC7 with
                leases := ainsert 8 ({ leaseM with state := .InUse, expires := 1000 + poolC7.Lifetime }) poolC7.leases },
            [dhcpReply msgC6 ⟨192, 168, 99, 1⟩ poolC7 5 leaseM.address]) ∧
    alookup 8 (ainsert 8 ({ leaseM with state := .InUse, expires := 1000 + poolC7.Lifetime }) poolC7.leases) =
      some { leaseM with state := .InUse, expires := 1000 + poolC7.Lifetime } ∧
    (dhcpReply msgC6 ⟨192, 168, 99, 1⟩ poolC7 5 leaseM.address).header.yourIP = leaseM.address ∧
    alookup 53 (dhcpReply msgC6 ⟨192, 168, 99, 1⟩ poolC7 5 leaseM.address).options =
      some (.u8 [5])) :=
  ⟨rfl, rfl, rfl, rfl, by decide,
    C6_renewal poolC7 msgC6 ⟨192, 168, 99, 1⟩ 1000 (some ⟨192, 168, 99, 1⟩)
      ⟨192, 168, 99, 10⟩ 8 leaseM rfl (Or.inr rfl) (Or.inl rfl) rfl rfl (by decide)⟩

/-- C7 counterexample: `msgC7` carries server identifier `192.168.99.250`
(not this server, `192.168.99.1`) and is sent by the owner of the lease at
index 8, yet because it carries neither option 50 nor a nonzero `ciaddr`
the handler returns before `freeLeases`: the pool is unchanged and the
client's lease survives, contradicting "frees every lease owned by that
client". -/
theorem C7_counterexample :
    msgC7.ServerIdentifier = some (some ⟨192, 168, 99, 250⟩) ∧
    (⟨192, 168, 99, 250⟩ : Ipv4) ≠ ⟨192, 168, 99, 1⟩ ∧
    leaseM.id.equals (newClientIdentifier msgC7) = true ∧
    poolC7.handleRequest msgC7 ⟨192, 168, 99, 1⟩ 1000 = some (poolC7, []) ∧
    alookup 8 poolC7.leases = some leaseM :=
  ⟨rfl, by decide, by decide, rfl, rfl⟩

/-- C7 amended: a REQUEST carrying a server identifier different from this
server's IP that also carries a requested address (option 50) or a nonzero
`ciaddr` makes the pool delete exactly the leases owned by that client
(leases of other clients pass the filter untouched) and send no reply. -/
theorem C7_amended (pool : Pool) (msg : DHCPMessage) (serverIP s : Ipv4) (now : Nat)
    (hsid : msg.ServerIdentifier = some (some s))
    (hne : s ≠ serverIP)
    (hrip : (∃ ip, msg.RequestedIP = some (some ip)) ∨
      (msg.RequestedIP = some none ∧ msg.header.clientIP ≠ zeroIpv4)) :
    pool.handleRequest msg serverIP now =
      some ({ pool with
                leases := pool.leases.filter (fun p => !(p.2.id.equals (newClientIdentifier msg))) },
            []) := by
  rcases hrip with ⟨ip, hripA⟩ | ⟨hripB, hcipne⟩
  · simp [Pool.handleRequest, hsid, hripA, hne, Pool.freeLeases]
  · simp [Pool.handleRequest, hsid, hripB, hcipne, hne, Pool.freeLeases]

/-- C7 amended witness: `msgC6` (server identifier `192.168.99.1`,
requested IP present) arriving at a server whose interface IP is
`192.168.99.2` frees the client's lease at index 8 and sends nothing. -/
theorem C7_amended_witness :
    msgC6.ServerIdentifier = some (some ⟨192, 168, 99, 1⟩) ∧
    (⟨192, 168, 99, 1⟩ : Ipv4) ≠ ⟨192, 168, 99, 2⟩ ∧
    poolC7.handleRequest msgC6 ⟨192, 168, 99, 2⟩ 1000 =
      some ({ poolC7 with
                leases := poolC7.leases.filter (fun p => !(p.2.id.equals (newClientIdentifier msgC6))) },
            []) :=
  ⟨rfl, by decide,
    C7_amended poolC7 msgC6 ⟨192, 168, 99, 2⟩ ⟨192, 168, 99, 1⟩ 1000 rfl (by decide)
      (Or.inl ⟨⟨192, 168, 99, 10⟩, rfl⟩)⟩

/-- C1 witness: the concrete well-formed message `m0` marshals and
unmarshals back to itself. -/
theorem C1_witness :
    m0.WF ∧ ∃ bs, MarshallDHCPMessage m0 = (some bs, none) ∧
      UnmarshallDHCPMessage bs = (m0, none) :=
  ⟨by decide, C1_roundtrip m0 (by decide)⟩
